import Mathlib

/-!
Verification of the worker-orchestration and marker-lifecycle subsystem of
the arjs-plugin-artoolkit repository.

The definitions below are a shallow embedding of the JavaScript source:
  * the control-side `ArtoolkitPlugin` lifecycle state machine
    (`_onWorkerMessage` detectionResult branch and `_sweepMarkers` in
    src/plugin.js),
  * the worker-side detection-engine adapter (`initArtoolkit` with its
    failure backoff and single-flight guard, src/worker/worker.js),
  * the worker-side pattern registry (`loadPatternOnce`),
  * the worker-side `processFrame` handler (bitmap release discipline),
  * the control-side Orchestrator RPC bookkeeping and the raw getMarker
    forwarding filter (these two are modelled from the specification, as
    the final control-side plugin file is not part of the snapshot).

JavaScript `Map` objects are embedded as association lists with unique
keys, JavaScript numbers used as timestamps and counters as `Nat`/`Int`,
and pose-matrix / confidence values (which are only passed through,
never computed with) as rationals.  A JavaScript promise is embedded by
its eventual outcome.
-/

namespace ArjsArtoolkit

section AssocList

variable {κ β : Type} [DecidableEq κ]

/-- JavaScript `Map.get`, on a Map embedded as an association list. -/
def alGet (m : List (κ × β)) (k : κ) : Option β :=
  match m with
  | [] => none
  | (k', v) :: rest => if k' = k then some v else alGet rest k

/-- JavaScript `Map.set`: replaces the value in place if the key is
present, otherwise appends the new entry. -/
def alSet (m : List (κ × β)) (k : κ) (v : β) : List (κ × β) :=
  match m with
  | [] => [(k, v)]
  | (k', v') :: rest =>
    if k' = k then (k, v) :: rest else (k', v') :: alSet rest k v

/-- JavaScript `Map.delete` (keys are unique, so filtering is deletion). -/
def alDelete (m : List (κ × β)) (k : κ) : List (κ × β) :=
  m.filter (fun e => !(e.1 == k))

/-- Keys of the map are pairwise distinct (a JavaScript `Map` invariant). -/
def KeysNodup (m : List (κ × β)) : Prop := (m.map Prod.fst).Nodup

end AssocList

section MarkerLifecycle

variable {α : Type} [DecidableEq α]

/-- A marker record of the control-side map
`Map<id, { lastSeen, visible, lostCount }>` in src/plugin.js. -/
structure MarkerState where
  lastSeen : Nat
  visible : Bool
  lostCount : Nat
deriving Repr, DecidableEq

/-- The control-side `this._markers` JavaScript Map. -/
abbrev MarkerMap (α : Type) := List (α × MarkerState)

/-- One element of a `detectionResult` batch as read by `_onWorkerMessage`:
`d.id`, `d.poseMatrix` (may be absent: `d.poseMatrix || []`),
`d.confidence` (may be absent: `d.confidence ?? 0`) and
`d.corners` (may be absent: `d.corners ?? []`). -/
structure DetectionIn (α : Type) where
  id : α
  confidence : Option ℚ
  poseMatrix : Option (List ℚ)
  corners : Option (List (ℚ × ℚ))
deriving Repr, DecidableEq

/-- Payload of an `ar:markerFound` / `ar:markerUpdated` event. -/
structure MarkerEventPayload (α : Type) where
  id : α
  poseMatrix : List ℚ
  confidence : ℚ
  corners : List (ℚ × ℚ)
  timestamp : Nat
deriving Repr, DecidableEq

/-- Events emitted on the host event bus by the lifecycle state machine. -/
inductive MarkerEvent (α : Type) where
  | found (p : MarkerEventPayload α)
  | updated (p : MarkerEventPayload α)
  | lost (id : α) (timestamp : Nat)
deriving Repr, DecidableEq

/-- One iteration of the `for (const d of payload.detections)` loop of
`_onWorkerMessage` (src/plugin.js): look up the record, take the found
branch when there is no record or the record is not visible, otherwise
the updated branch (refresh `lastSeen`, reset `lostCount`). -/
def processDetection (now : Nat) (st : MarkerMap α) (d : DetectionIn α) :
    MarkerMap α × List (MarkerEvent α) :=
  let poseMatrix := d.poseMatrix.getD []
  let confidence := d.confidence.getD 0
  let corners := d.corners.getD []
  match alGet st d.id with
  | some prev =>
    if prev.visible then
      (alSet st d.id { prev with lastSeen := now, lostCount := 0 },
       [MarkerEvent.updated ⟨d.id, poseMatrix, confidence, corners, now⟩])
    else
      (alSet st d.id ⟨now, true, 0⟩,
       [MarkerEvent.found ⟨d.id, poseMatrix, confidence, corners, now⟩])
  | none =>
      (alSet st d.id ⟨now, true, 0⟩,
       [MarkerEvent.found ⟨d.id, poseMatrix, confidence, corners, now⟩])

/-- The whole `detectionResult` branch of `_onWorkerMessage`: process the
batch in order, collecting the emitted events. -/
def processDetections (now : Nat) (st : MarkerMap α) :
    List (DetectionIn α) → MarkerMap α × List (MarkerEvent α)
  | [] => (st, [])
  | d :: ds =>
    let r1 := processDetection now st d
    let r2 := processDetections now r1.1 ds
    (r2.1, r1.2 ++ r2.2)

/-- The staleness test of `_sweepMarkers`:
`now - (state.lastSeen || 0) > lostThreshold * frameDurationMs`
(JavaScript subtraction may go negative, hence the `Int` cast). -/
def isLost (now thresholdMs : Nat) (s : MarkerState) : Bool :=
  decide ((now : ℤ) - (s.lastSeen : ℤ) > (thresholdMs : ℤ))

/-- `_sweepMarkers` (src/plugin.js): every record older than
`lostThreshold * frameDurationMs` is deleted and yields one
`ar:markerLost` event; all other records stay untouched. -/
def sweepMarkers (now lostThreshold frameDurationMs : Nat) (st : MarkerMap α) :
    MarkerMap α × List (MarkerEvent α) :=
  let thresholdMs := lostThreshold * frameDurationMs
  (st.filter (fun e => !isLost now thresholdMs e.2),
   (st.filter (fun e => isLost now thresholdMs e.2)).map
     (fun e => MarkerEvent.lost e.1 now))

/-- The found events of an emitted event list that carry a given id. -/
def foundEventsFor (evs : List (MarkerEvent α)) (x : α) :
    List (MarkerEventPayload α) :=
  evs.filterMap (fun e =>
    match e with
    | MarkerEvent.found p => if p.id = x then some p else none
    | _ => none)

/-- The updated events of an emitted event list that carry a given id. -/
def updatedEventsFor (evs : List (MarkerEvent α)) (x : α) :
    List (MarkerEventPayload α) :=
  evs.filterMap (fun e =>
    match e with
    | MarkerEvent.updated p => if p.id = x then some p else none
    | _ => none)

/-- The lost events of an emitted event list that carry a given id
(listing their timestamps). -/
def lostEventsFor (evs : List (MarkerEvent α)) (x : α) : List Nat :=
  evs.filterMap (fun e =>
    match e with
    | MarkerEvent.lost i t => if i = x then some t else none
    | _ => none)

/-- Every record stored in the marker map is visible. -/
def AllVisible (m : MarkerMap α) : Prop := ∀ e ∈ m, e.2.visible = true

/-- The marker maps reachable by the control-side plugin: the map starts
empty and is only ever changed by the detectionResult branch of
`_onWorkerMessage` and by `_sweepMarkers`. -/
inductive ReachableMarkers : MarkerMap α → Prop where
  | empty : ReachableMarkers []
  | detections (now : Nat) (ds : List (DetectionIn α)) {m : MarkerMap α} :
      ReachableMarkers m → ReachableMarkers (processDetections now m ds).1
  | sweep (now lostThreshold frameDurationMs : Nat) {m : MarkerMap α} :
      ReachableMarkers m →
      ReachableMarkers (sweepMarkers now lostThreshold frameDurationMs m).1

end MarkerLifecycle

section InitBackoff

/-- Worker-side detection-engine adapter state of src/worker/worker.js
(the variant with the guarded initializer): `arControllerInitialized`,
`initInProgress`, `initFailCount`, `initFailedUntil`.  The in-flight
promise `initInProgress` is embedded by its eventual outcome. -/
structure WorkerInitState where
  arControllerInitialized : Bool
  initInProgress : Option Bool
  initFailCount : Nat
  initFailedUntil : Nat
deriving Repr, DecidableEq

/-- What one call of the guarded `initArtoolkit` did: the resolved value,
how many fresh engine initialization attempts it started, how many
`error` messages it sent to the control side, and the state it left. -/
structure InitCallResult where
  result : Bool
  attemptsStarted : Nat
  errorsEmitted : Nat
  state : WorkerInitState
deriving Repr, DecidableEq

/-- The failure arm of `initArtoolkit`:
`initFailCount = Math.min(initFailCount + 1, 6)` and
`delay = Math.min(30000, 1000 * Math.pow(2, initFailCount))`,
then `initFailedUntil = Date.now() + delay` and one error message. -/
def initFailureUpdate (st : WorkerInitState) (now : Nat) : WorkerInitState × Nat :=
  let c := min (st.initFailCount + 1) 6
  let delay := min 30000 (1000 * 2 ^ c)
  ({ arControllerInitialized := false
     initInProgress := none
     initFailCount := c
     initFailedUntil := now + delay }, delay)

/-- The guarded `initArtoolkit(width, height)` of the worker, with the
clock sampled once per call and the outcome of a freshly started engine
attempt supplied by the environment (`attemptSucceeds`):
  * already initialized: resolve true;
  * inside the backoff window (`now < initFailedUntil`): resolve false,
    start nothing, send nothing;
  * an attempt in flight: await it and return its outcome (the awaited
    promise never rejects, since its `finally` block returns `ok`);
  * otherwise start exactly one attempt; on success reset the failure
    state, on failure apply `initFailureUpdate` and send one error. -/
def initArtoolkitCall (st : WorkerInitState) (now : Nat) (attemptSucceeds : Bool) :
    InitCallResult :=
  if st.arControllerInitialized then ⟨true, 0, 0, st⟩
  else if now < st.initFailedUntil then ⟨false, 0, 0, st⟩
  else
    match st.initInProgress with
    | some outcome => ⟨outcome, 0, 0, st⟩
    | none =>
      if attemptSucceeds then
        ⟨true, 1, 0,
          { arControllerInitialized := true
            initInProgress := none
            initFailCount := 0
            initFailedUntil := 0 }⟩
      else
        let u := initFailureUpdate st now
        ⟨false, 1, 1, u.1⟩

/-- The retry delay produced by the n-th consecutive failed attempt,
starting from the fresh worker state (`initFailCount = 0`): before the
n-th failure the counter holds `min (n-1) 6`. -/
def nthFailureDelay : Nat → Nat
  | 0 => 0
  | n + 1 => (initFailureUpdate ⟨false, none, min n 6, 0⟩ 0).2

end InitBackoff

section PatternRegistry

variable {κ ι : Type} [DecidableEq κ]

/-- Worker-side pattern registry state of src/worker/worker.js:
`loadedMarkers : Map<patternUrl, markerId>` and
`loadingMarkers : Map<patternUrl, Promise<markerId>>`.  A pending
promise is embedded by an abstract promise identifier. -/
structure RegState (κ ι : Type) where
  loadedMarkers : List (κ × ι)
  loadingMarkers : List (κ × Nat)
deriving Repr

/-- What a caller of `loadPatternOnce` receives: either the cached marker
id, or (a reference to) a pending promise shared with other callers. -/
inductive LoadResult (ι : Type) where
  | cached (id : ι)
  | pending (promise : Nat)
deriving Repr, DecidableEq

/-- `loadPatternOnce(patternUrl)` of src/worker/worker.js: return the
cached id if present, else the in-flight promise if present, else call
`arController.loadMarker` exactly once (counted by the middle component
of the result) and record the fresh in-flight promise. -/
def loadPatternOnce (st : RegState κ ι) (key : κ) (freshPromise : Nat) :
    LoadResult ι × Nat × RegState κ ι :=
  match alGet st.loadedMarkers key with
  | some id => (LoadResult.cached id, 0, st)
  | none =>
    match alGet st.loadingMarkers key with
    | some p => (LoadResult.pending p, 0, st)
    | none =>
      (LoadResult.pending freshPromise, 1,
       { st with loadingMarkers := alSet st.loadingMarkers key freshPromise })

/-- Settlement of the in-flight promise of `loadPatternOnce`: on success
(`some id`) move the id into `loadedMarkers` and drop the in-flight
entry; on failure (`none`) just drop the in-flight entry (the error
propagates through the shared promise). -/
def settleLoad (st : RegState κ ι) (key : κ) (outcome : Option ι) :
    RegState κ ι :=
  match outcome with
  | some id =>
    { loadedMarkers := alSet st.loadedMarkers key id
      loadingMarkers := alDelete st.loadingMarkers key }
  | none => { st with loadingMarkers := alDelete st.loadingMarkers key }

/-- n calls of `loadPatternOnce` for the same key, all arriving before
the in-flight promise settles (the worker is single threaded, so the
calls run back to back).  Returns every caller's result, the total
number of engine `loadMarker` invocations, and the final state. -/
def concurrentLoads (st : RegState κ ι) (key : κ) (freshPromise : Nat) :
    Nat → List (LoadResult ι) × Nat × RegState κ ι
  | 0 => ([], 0, st)
  | n + 1 =>
    let r := loadPatternOnce st key freshPromise
    let rest := concurrentLoads r.2.2 key freshPromise n
    (r.1 :: rest.1, r.2.1 + rest.2.1, rest.2.2)

end PatternRegistry

section FramePipeline

/-- Fault model for one browser-path `processFrame` message of
src/worker/worker.js: whether `drawImage` (compositing) throws, whether
`arController.process(offscreenCanvas)` throws, and whether the
`getImageData`/`process(imgData)` fallback throws. -/
structure FrameFaults where
  compositeThrows : Bool
  processThrows : Bool
  fallbackThrows : Bool
deriving Repr, DecidableEq

/-- Observable actions of the browser-path `processFrame` handler. -/
inductive FrameAction where
  | composite
  | closeBitmap
  | processCanvas
  | processImageData
  | warnFallback
  | logError
deriving Repr, DecidableEq

/-- The browser path of the `processFrame` handler (src/worker/worker.js),
as the sequence of actions it performs: it composites the transferred
bitmap into the raster buffer, then closes the bitmap, then (when the
engine is initialized) submits the buffer, falling back to an
`ImageData` submission and swallowing a second failure.  A compositing
exception is caught by the outer try/catch, which only logs: the close
call sits after the compositing step, not in a finally block. -/
def processFrameTrace (engineInitialized : Bool) (f : FrameFaults) :
    List FrameAction :=
  if f.compositeThrows then
    [FrameAction.composite, FrameAction.logError]
  else
    [FrameAction.composite, FrameAction.closeBitmap] ++
    (if engineInitialized then
      if f.processThrows then
        if f.fallbackThrows then
          [FrameAction.processCanvas, FrameAction.processImageData,
           FrameAction.warnFallback]
        else
          [FrameAction.processCanvas, FrameAction.processImageData]
      else
        [FrameAction.processCanvas]
    else [])

/-- How many times one `processFrame` invocation released the bitmap. -/
def closeCount (engineInitialized : Bool) (f : FrameFaults) : Nat :=
  (processFrameTrace engineInitialized f).count FrameAction.closeBitmap

end FramePipeline

section Orchestrator

/-- Modelled from the spec: a pending RPC entry of the control-side
Orchestrator (the final plugin file with `loadMarker`, its pending-
request map and the 10s timeout is missing from the snapshot; only its
tests and the README reference it).  Spec section 4.6: requestId to
pending-continuation mapping with createdAt and a timeout handle. -/
structure PendingEntry where
  createdAt : Nat
  timeoutAt : Nat
deriving Repr, DecidableEq

/-- Modelled from the spec: Orchestrator RPC bookkeeping state — a
strictly increasing requestId allocator and the pending map. -/
structure OrchState where
  nextRequestId : Nat
  pending : List (Nat × PendingEntry)
deriving Repr

/-- How a pending `loadMarker` promise ends: resolved by a matching
response, or rejected with a timeout-classified error. -/
inductive RpcOutcome where
  | resolved
  | rejectedTimeout
deriving Repr, DecidableEq

/-- Modelled from the spec: issuing a `loadMarker` RPC — allocate a
strictly increasing requestId, attach it to the outbound message, and
record the pending continuation with its timeout deadline. -/
def issueLoadMarker (st : OrchState) (now timeoutMs : Nat) : Nat × OrchState :=
  (st.nextRequestId,
   { nextRequestId := st.nextRequestId + 1
     pending := st.pending ++ [(st.nextRequestId, ⟨now, now + timeoutMs⟩)] })

/-- Modelled from the spec: a `loadMarkerResult` response carrying some
requestId — resolve and remove the matching pending entry, if any. -/
def handleResponse (st : OrchState) (rid : Nat) : Option RpcOutcome × OrchState :=
  match alGet st.pending rid with
  | some _ =>
    (some RpcOutcome.resolved, { st with pending := alDelete st.pending rid })
  | none => (none, st)

/-- Modelled from the spec: the timeout of a `loadMarker` RPC fires — if
the entry is still pending (no matching response arrived within the
window), reject its promise with a timeout-classified error and remove
the entry from the pending map. -/
def fireTimeout (st : OrchState) (rid : Nat) : Option RpcOutcome × OrchState :=
  match alGet st.pending rid with
  | some _ =>
    (some RpcOutcome.rejectedTimeout,
     { st with pending := alDelete st.pending rid })
  | none => (none, st)

/-- Processing a batch of responses (by requestId) in arrival order. -/
def handleResponses (st : OrchState) : List Nat → OrchState
  | [] => st
  | r :: rs => handleResponses (handleResponse st r).2 rs

end Orchestrator

section GetMarkerFilter

/-- A raw `getMarker` event as serialized by the worker:
`{ type, matrix, marker: { idPatt, cfPatt, ... } }`. -/
structure RawGetMarkerEvent where
  eventType : Nat
  matrix : List ℚ
  idPatt : Nat
  cfPatt : ℚ
deriving Repr, DecidableEq

/-- Modelled from the spec: the raw-event forwarding filter (spec
section 6) of the final control-side plugin, which is missing from the
snapshot (the README documents it: forward only PATTERN_MARKER events
above `minConfidence`, default 0.6).  Forward only events whose type
equals the configured pattern-marker type, whose confidence is at least
the configured minimum, whose matrix has at least 16 entries, and —
when the set of tracked pattern ids is nonempty — whose marker id is in
that set; a forwarded event is passed through unchanged. -/
def forwardGetMarker (patternMarkerType : Nat) (minConfidence : ℚ)
    (trackedIds : List Nat) (ev : RawGetMarkerEvent) :
    Option RawGetMarkerEvent :=
  if ev.eventType = patternMarkerType ∧ minConfidence ≤ ev.cfPatt ∧
     16 ≤ ev.matrix.length ∧ (trackedIds ≠ [] → ev.idPatt ∈ trackedIds)
  then some ev else none

/-- Default minimum confidence of the filter (0.6). -/
def defaultMinConfidence : ℚ := 6 / 10

end GetMarkerFilter

/-! ### Association-list facts shared by the proofs below -/

section AssocListLemmas

variable {κ β : Type} [DecidableEq κ]

theorem alGet_set_self (m : List (κ × β)) (k : κ) (v : β) :
    alGet (alSet m k v) k = some v := by
  induction m with
  | nil => simp [alGet, alSet]
  | cons e rest ih =>
    obtain ⟨k', v'⟩ := e
    by_cases h : k' = k
    · simp [alSet, h, alGet]
    · simp [alSet, h, alGet, ih]

theorem alGet_set_ne (m : List (κ × β)) (k x : κ) (v : β) (h : x ≠ k) :
    alGet (alSet m k v) x = alGet m x := by
  induction m with
  | nil => simp [alGet, alSet, Ne.symm h]
  | cons e rest ih =>
    obtain ⟨k', v'⟩ := e
    by_cases hk : k' = k
    · subst hk; simp [alSet, alGet, Ne.symm h]
    · by_cases hx : k' = x <;> simp [alSet, alGet, hk, hx, ih, h]

theorem alGet_delete_self (m : List (κ × β)) (k : κ) :
    alGet (alDelete m k) k = none := by
  induction m with
  | nil => simp [alDelete, alGet]
  | cons e rest ih =>
    obtain ⟨k', v'⟩ := e
    by_cases h : k' = k
    · simpa [alDelete, List.filter_cons, h] using ih
    · simpa [alDelete, List.filter_cons, h, alGet] using ih

theorem alGet_delete_ne (m : List (κ × β)) (k x : κ) (h : x ≠ k) :
    alGet (alDelete m k) x = alGet m x := by
  induction m with
  | nil => simp [alDelete, alGet]
  | cons e rest ih =>
    obtain ⟨k', v'⟩ := e
    by_cases hx : k' = x
    · subst hx
      simp [alDelete, List.filter_cons, alGet, h]
    · by_cases hk : k' = k
      · subst hk; simpa [alDelete, List.filter_cons, alGet, hx] using ih
      · simpa [alDelete, List.filter_cons, alGet, hk, hx] using ih

theorem alGet_eq_none_of_not_mem_keys (m : List (κ × β)) (k : κ)
    (h : k ∉ m.map Prod.fst) : alGet m k = none := by
  induction m with
  | nil => simp [alGet]
  | cons e rest ih =>
    obtain ⟨k', v'⟩ := e
    have h1 : k' ≠ k := by
      intro hk; exact h (by simp [hk])
    have h2 : k ∉ rest.map Prod.fst := by
      intro hm; exact h (by simp [hm])
    simp [alGet, h1, ih h2]

theorem alGet_mem (m : List (κ × β)) (k : κ) (v : β)
    (h : alGet m k = some v) : (k, v) ∈ m := by
  induction m with
  | nil => simp [alGet] at h
  | cons e rest ih =>
    obtain ⟨k', v'⟩ := e
    by_cases hk : k' = k
    · subst hk
      simp [alGet] at h
      simp [h]
    · simp [alGet, hk] at h
      exact List.mem_cons_of_mem _ (ih h)

theorem alGet_append_of_none (m m' : List (κ × β)) (k : κ)
    (h : alGet m k = none) : alGet (m ++ m') k = alGet m' k := by
  induction m with
  | nil => simp
  | cons e rest ih =>
    obtain ⟨k', v'⟩ := e
    by_cases hk : k' = k
    · simp [alGet, hk] at h
    · simp [alGet, hk] at h ⊢
      exact ih h

theorem mem_alSet (m : List (κ × β)) (k : κ) (v : β) (e : κ × β)
    (h : e ∈ alSet m k v) : e = (k, v) ∨ e ∈ m := by
  induction m with
  | nil => simpa [alSet] using h
  | cons e' rest ih =>
    obtain ⟨k', v'⟩ := e'
    by_cases hk : k' = k
    · simp [alSet, hk] at h
      rcases h with h | h
      · exact Or.inl h
      · exact Or.inr (List.mem_cons_of_mem _ h)
    · simp [alSet, hk] at h
      rcases h with h | h
      · exact Or.inr (by simp [h])
      · rcases ih h with h' | h'
        · exact Or.inl h'
        · exact Or.inr (List.mem_cons_of_mem _ h')

end AssocListLemmas

/-! ### C6, C7, C4 — the guarded initializer and its backoff -/

/-- C6: while an initialization attempt is already in flight, a call of
the guarded initializer starts no second attempt; outside the other
guards the caller simply awaits the in-flight attempt and returns its
outcome. -/
theorem init_single_flight (st : WorkerInitState) (now : Nat)
    (attemptSucceeds : Bool) (o : Bool) (h : st.initInProgress = some o) :
    (initArtoolkitCall st now attemptSucceeds).attemptsStarted = 0 ∧
    (st.arControllerInitialized = false → st.initFailedUntil ≤ now →
      (initArtoolkitCall st now attemptSucceeds).result = o) := by
  by_cases h1 : st.arControllerInitialized
  · refine ⟨by simp [initArtoolkitCall, h1], fun h2 _ => ?_⟩
    rw [h1] at h2; cases h2
  · by_cases h2 : now < st.initFailedUntil
    · refine ⟨by simp [initArtoolkitCall, h1, h2], fun _ h3 => ?_⟩
      omega
    · exact ⟨by simp [initArtoolkitCall, h1, h2, h],
        fun _ _ => by simp [initArtoolkitCall, h1, h2, h]⟩

theorem init_single_flight_witness :
    (⟨false, some true, 0, 0⟩ : WorkerInitState).arControllerInitialized = false ∧
    (initArtoolkitCall ⟨false, some true, 0, 0⟩ 5 false).attemptsStarted = 0 ∧
    (initArtoolkitCall ⟨false, some true, 0, 0⟩ 5 false).result = true := by
  have h := init_single_flight ⟨false, some true, 0, 0⟩ 5 false true rfl
  exact ⟨rfl, h.1, h.2 rfl (by decide)⟩

/-- C7: a call of the guarded initializer made inside the backoff window
(`now < initFailedUntil`, state uninitialized) resolves false, starts no
initialization attempt, emits no error message and leaves the state
untouched. -/
theorem init_backoff_window_noop (st : WorkerInitState) (now : Nat)
    (attemptSucceeds : Bool) (h1 : st.arControllerInitialized = false)
    (h2 : now < st.initFailedUntil) :
    initArtoolkitCall st now attemptSucceeds = ⟨false, 0, 0, st⟩ := by
  simp [initArtoolkitCall, h1, h2]

theorem init_backoff_window_noop_witness :
    initArtoolkitCall ⟨false, none, 1, 100⟩ 50 true =
      ⟨false, 0, 0, ⟨false, none, 1, 100⟩⟩ :=
  init_backoff_window_noop ⟨false, none, 1, 100⟩ 50 true rfl (by decide)

/-- C4: the code increments `initFailCount` before exponentiating, so the
retry delays actually produced from a fresh state are
2s, 4s, 8s, 16s, 30s, 30s, ... — the first failed attempt sets
`initFailedUntil = now + 2000`, not `now + 1000` as the claimed schedule
1s, 2s, 4s, ... (and the code's own comment) would have it.  Exactly one
error message is emitted by that failed attempt. -/
theorem backoff_schedule_first_delay :
    (initArtoolkitCall ⟨false, none, 0, 0⟩ 0 false).state.initFailedUntil = 2000 ∧
    (initArtoolkitCall ⟨false, none, 0, 0⟩ 0 false).errorsEmitted = 1 ∧
    (List.range 7).map (fun i => nthFailureDelay (i + 1)) =
      [2000, 4000, 8000, 16000, 30000, 30000, 30000] ∧
    nthFailureDelay 1 ≠ 1000 := by
  refine ⟨rfl, rfl, ?_, by decide⟩
  decide

/-! ### C9 — release of the transferred bitmap in processFrame -/

/-- C9 as stated is false on the code: when compositing (`drawImage`)
throws, the outer catch only logs and the bitmap is never closed. -/
theorem processFrame_close_claim_false :
    (closeCount true ⟨true, false, false⟩ = 1) = False := by
  simp [closeCount, processFrameTrace]

/-- C9 amended: the transferred bitmap is released exactly once whenever
compositing succeeds — in particular even when detection (and its
fallback) raises — but when compositing throws it is not released at
all. -/
theorem processFrame_close_release (engineInitialized : Bool) (f : FrameFaults) :
    (f.compositeThrows = false → closeCount engineInitialized f = 1) ∧
    (f.compositeThrows = true → closeCount engineInitialized f = 0) := by
  obtain ⟨c, p, fb⟩ := f
  cases c <;> cases p <;> cases fb <;> cases engineInitialized <;>
    refine ⟨fun h => ?_, fun h => ?_⟩ <;>
    first
      | decide
      | exact absurd h (by decide)

theorem processFrame_close_release_witness :
    closeCount true ⟨false, true, true⟩ = 1 :=
  (processFrame_close_release true ⟨false, true, true⟩).1 rfl

/-! ### C8 — the raw getMarker forwarding filter (spec-modelled) -/

/-- C8: a raw `getMarker` event is forwarded only if its type equals the
configured pattern-marker type, its confidence is at least the
configured minimum, its matrix has at least 16 entries and — when the
tracked-id set is nonempty — its marker id is tracked; a forwarded
event is unchanged.  Conversely an event meeting all the conditions is
forwarded. -/
theorem getMarker_forwarding_filter (patternMarkerType : Nat)
    (minConfidence : ℚ) (trackedIds : List Nat) (ev : RawGetMarkerEvent) :
    (∀ out, forwardGetMarker patternMarkerType minConfidence trackedIds ev =
        some out →
      out = ev ∧ ev.eventType = patternMarkerType ∧
      minConfidence ≤ ev.cfPatt ∧ 16 ≤ ev.matrix.length ∧
      (trackedIds ≠ [] → ev.idPatt ∈ trackedIds)) ∧
    (ev.eventType = patternMarkerType → minConfidence ≤ ev.cfPatt →
      16 ≤ ev.matrix.length → (trackedIds ≠ [] → ev.idPatt ∈ trackedIds) →
      forwardGetMarker patternMarkerType minConfidence trackedIds ev = some ev) := by
  constructor
  · intro out h
    unfold forwardGetMarker at h
    split at h
    · rename_i hc
      cases h
      exact ⟨rfl, hc.1, hc.2.1, hc.2.2.1, hc.2.2.2⟩
    · cases h
  · intro h1 h2 h3 h4
    unfold forwardGetMarker
    exact if_pos ⟨h1, h2, h3, h4⟩

theorem getMarker_forwarding_filter_witness :
    forwardGetMarker 0 defaultMinConfidence []
        ⟨0, List.replicate 16 0, 3, 9 / 10⟩ =
      some ⟨0, List.replicate 16 0, 3, 9 / 10⟩ :=
  (getMarker_forwarding_filter 0 defaultMinConfidence []
      ⟨0, List.replicate 16 0, 3, 9 / 10⟩).2 rfl (by norm_num [defaultMinConfidence])
    (by simp) (by simp)

/-! ### C2 — deduplicated pattern loading -/

theorem loadPatternOnce_pending {κ ι : Type} [DecidableEq κ]
    (st : RegState κ ι) (key : κ) (p q : Nat)
    (hld : alGet st.loadedMarkers key = none)
    (hlg : alGet st.loadingMarkers key = some p) :
    loadPatternOnce st key q = (LoadResult.pending p, 0, st) := by
  simp [loadPatternOnce, hld, hlg]

theorem concurrentLoads_pending {κ ι : Type} [DecidableEq κ]
    (st : RegState κ ι) (key : κ) (p q : Nat) (n : Nat)
    (hld : alGet st.loadedMarkers key = none)
    (hlg : alGet st.loadingMarkers key = some p) :
    concurrentLoads st key q n =
      (List.replicate n (LoadResult.pending p), 0, st) := by
  induction n with
  | zero => simp [concurrentLoads]
  | succ n ih =>
    simp [concurrentLoads, loadPatternOnce_pending st key p q hld hlg, ih,
      List.replicate_succ]

/-- C2: n ≥ 1 calls of `loadPatternOnce` for the same pattern key, all
arriving before the shared promise settles, invoke the engine load
exactly once, and every caller receives the same pending promise (hence
the same resolved id or the same error).  After a successful
settlement, any later call returns the cached id without touching the
engine again or changing the state; after a failed settlement, the
in-flight cache entry for the key is cleared. -/
theorem loadPattern_dedup {κ ι : Type} [DecidableEq κ]
    (st : RegState κ ι) (key : κ) (p : Nat) (n : Nat) (hn : 1 ≤ n)
    (hld : alGet st.loadedMarkers key = none)
    (hlg : alGet st.loadingMarkers key = none) :
    (concurrentLoads st key p n).2.1 = 1 ∧
    (concurrentLoads st key p n).1 =
      List.replicate n (LoadResult.pending p) ∧
    (∀ (id : ι) (q : Nat),
      loadPatternOnce (settleLoad (concurrentLoads st key p n).2.2 key (some id))
          key q =
        (LoadResult.cached id, 0,
         settleLoad (concurrentLoads st key p n).2.2 key (some id))) ∧
    alGet (settleLoad (concurrentLoads st key p n).2.2 key none).loadingMarkers
        key = none := by
  cases n with
  | zero => omega
  | succ m =>
    have hfirst : loadPatternOnce st key p =
        (LoadResult.pending p, 1,
         { st with loadingMarkers := alSet st.loadingMarkers key p }) := by
      simp [loadPatternOnce, hld, hlg]
    have hlg1 : alGet (alSet st.loadingMarkers key p) key = some p :=
      alGet_set_self st.loadingMarkers key p
    have hrest := concurrentLoads_pending
      { st with loadingMarkers := alSet st.loadingMarkers key p } key p p m hld hlg1
    have hall : concurrentLoads st key p (m + 1) =
        (List.replicate (m + 1) (LoadResult.pending p), 1,
         { st with loadingMarkers := alSet st.loadingMarkers key p }) := by
      simp [concurrentLoads, hfirst, hrest, List.replicate_succ]
    rw [hall]
    refine ⟨rfl, rfl, fun id q => ?_, ?_⟩
    · simp [settleLoad, loadPatternOnce, alGet_set_self]
    · simp [settleLoad, alGet_delete_self]

theorem loadPattern_dedup_witness :
    (concurrentLoads (⟨[], []⟩ : RegState Nat Nat) 5 0 3).2.1 = 1 ∧
    (concurrentLoads (⟨[], []⟩ : RegState Nat Nat) 5 0 3).1 =
      List.replicate 3 (LoadResult.pending 0) ∧
    loadPatternOnce
        (settleLoad (concurrentLoads (⟨[], []⟩ : RegState Nat Nat) 5 0 3).2.2 5
          (some 42)) 5 7 =
      (LoadResult.cached 42, 0,
       settleLoad (concurrentLoads (⟨[], []⟩ : RegState Nat Nat) 5 0 3).2.2 5
         (some 42)) ∧
    alGet (settleLoad (concurrentLoads (⟨[], []⟩ : RegState Nat Nat) 5 0 3).2.2 5
        none).loadingMarkers 5 = none := by
  have h := loadPattern_dedup (⟨[], []⟩ : RegState Nat Nat) 5 0 3 (by decide)
    rfl rfl
  exact ⟨h.1, h.2.1, h.2.2.1 42 7, h.2.2.2⟩

/-! ### C3 — loadMarker RPC timeout (spec-modelled Orchestrator) -/

theorem handleResponses_preserves (st : OrchState) (rs : List Nat) (rid : Nat)
    (h : rid ∉ rs) :
    alGet (handleResponses st rs).pending rid = alGet st.pending rid := by
  induction rs generalizing st with
  | nil => rfl
  | cons r rs ih =>
    have hne : rid ≠ r := fun e => h (e ▸ List.mem_cons_self r rs)
    have h' : rid ∉ rs := fun hm => h (List.mem_cons_of_mem _ hm)
    show alGet (handleResponses (handleResponse st r).2 rs).pending rid = _
    rw [ih _ h']
    unfold handleResponse
    cases hg : alGet st.pending r with
    | none => rfl
    | some e => simpa using alGet_delete_ne st.pending r rid hne

/-- C3: a `loadMarker` RPC whose requestId never gets a matching response
within the timeout window is rejected with a timeout-classified error
when the timeout fires, and its pending-request entry is removed from
the pending map. -/
theorem loadMarker_timeout_rejects (st : OrchState) (now timeoutMs : Nat)
    (hfresh : ∀ r ∈ st.pending.map Prod.fst, r < st.nextRequestId)
    (responses : List Nat) (hno : st.nextRequestId ∉ responses) :
    (fireTimeout
        (handleResponses (issueLoadMarker st now timeoutMs).2 responses)
        (issueLoadMarker st now timeoutMs).1).1 =
      some RpcOutcome.rejectedTimeout ∧
    alGet (fireTimeout
        (handleResponses (issueLoadMarker st now timeoutMs).2 responses)
        (issueLoadMarker st now timeoutMs).1).2.pending
        (issueLoadMarker st now timeoutMs).1 = none := by
  have hnone : alGet st.pending st.nextRequestId = none := by
    apply alGet_eq_none_of_not_mem_keys
    intro hm
    exact absurd (hfresh _ hm) (lt_irrefl _)
  have hget : alGet (issueLoadMarker st now timeoutMs).2.pending
      st.nextRequestId = some ⟨now, now + timeoutMs⟩ := by
    show alGet (st.pending ++ [(st.nextRequestId, ⟨now, now + timeoutMs⟩)])
        st.nextRequestId = _
    rw [alGet_append_of_none _ _ _ hnone]
    simp [alGet]
  have hstill : alGet
      (handleResponses (issueLoadMarker st now timeoutMs).2 responses).pending
      st.nextRequestId = some ⟨now, now + timeoutMs⟩ := by
    rw [handleResponses_preserves _ responses st.nextRequestId hno, hget]
  have hid : (issueLoadMarker st now timeoutMs).1 = st.nextRequestId := rfl
  rw [hid]
  constructor
  · simp [fireTimeout, hstill]
  · simp [fireTimeout, hstill, alGet_delete_self]

theorem loadMarker_timeout_rejects_witness :
    (fireTimeout
        (handleResponses (issueLoadMarker ⟨0, []⟩ 0 10000).2 [5])
        (issueLoadMarker ⟨0, []⟩ 0 10000).1).1 =
      some RpcOutcome.rejectedTimeout ∧
    alGet (fireTimeout
        (handleResponses (issueLoadMarker ⟨0, []⟩ 0 10000).2 [5])
        (issueLoadMarker ⟨0, []⟩ 0 10000).1).2.pending
        (issueLoadMarker ⟨0, []⟩ 0 10000).1 = none :=
  loadMarker_timeout_rejects ⟨0, []⟩ 0 10000 (by simp) [5] (by decide)

/-! ### Lifecycle state machine lemmas (towards C1, C5, C10) -/

section LifecycleLemmas

variable {α : Type} [DecidableEq α]

theorem foundEventsFor_append (a b : List (MarkerEvent α)) (x : α) :
    foundEventsFor (a ++ b) x = foundEventsFor a x ++ foundEventsFor b x := by
  simp [foundEventsFor, List.filterMap_append]

theorem updatedEventsFor_append (a b : List (MarkerEvent α)) (x : α) :
    updatedEventsFor (a ++ b) x = updatedEventsFor a x ++ updatedEventsFor b x := by
  simp [updatedEventsFor, List.filterMap_append]

theorem processDetections_cons (now : Nat) (st : MarkerMap α)
    (d : DetectionIn α) (ds : List (DetectionIn α)) :
    processDetections now st (d :: ds) =
      ((processDetections now (processDetection now st d).1 ds).1,
       (processDetection now st d).2 ++
         (processDetections now (processDetection now st d).1 ds).2) := rfl

theorem processDetection_ne (now : Nat) (st : MarkerMap α) (d : DetectionIn α)
    (x : α) (h : d.id ≠ x) :
    foundEventsFor (processDetection now st d).2 x = [] ∧
    updatedEventsFor (processDetection now st d).2 x = [] ∧
    alGet (processDetection now st d).1 x = alGet st x := by
  unfold processDetection
  cases hg : alGet st d.id with
  | none =>
    simp [foundEventsFor, updatedEventsFor, List.filterMap_cons, h,
      alGet_set_ne st d.id x _ (Ne.symm h)]
  | some prev =>
    cases hv : prev.visible <;>
      simp [foundEventsFor, updatedEventsFor, List.filterMap_cons, h, hv,
        alGet_set_ne st d.id x _ (Ne.symm h)]

theorem processDetection_found (now : Nat) (st : MarkerMap α) (d : DetectionIn α)
    (h : ∀ prev, alGet st d.id = some prev → prev.visible = false) :
    processDetection now st d =
      (alSet st d.id ⟨now, true, 0⟩,
       [MarkerEvent.found ⟨d.id, d.poseMatrix.getD [], d.confidence.getD 0,
          d.corners.getD [], now⟩]) := by
  unfold processDetection
  cases hg : alGet st d.id with
  | none => simp
  | some prev => simp [h prev hg]

theorem processDetection_updated (now : Nat) (st : MarkerMap α)
    (d : DetectionIn α) (prev : MarkerState)
    (hg : alGet st d.id = some prev) (hv : prev.visible = true) :
    processDetection now st d =
      (alSet st d.id ⟨now, prev.visible, 0⟩,
       [MarkerEvent.updated ⟨d.id, d.poseMatrix.getD [], d.confidence.getD 0,
          d.corners.getD [], now⟩]) := by
  unfold processDetection
  rw [hg]
  simp [hv]

theorem processDetections_not_mem (now : Nat) (ds : List (DetectionIn α))
    (st : MarkerMap α) (x : α) (h : x ∉ ds.map DetectionIn.id) :
    foundEventsFor (processDetections now st ds).2 x = [] ∧
    updatedEventsFor (processDetections now st ds).2 x = [] ∧
    alGet (processDetections now st ds).1 x = alGet st x := by
  induction ds generalizing st with
  | nil => simp [processDetections, foundEventsFor, updatedEventsFor]
  | cons d ds ih =>
    have hne : d.id ≠ x := fun e => h (by simp [e])
    have h' : x ∉ ds.map DetectionIn.id := fun hm => h (by simp [hm])
    obtain ⟨f1, u1, g1⟩ := processDetection_ne now st d x hne
    obtain ⟨f2, u2, g2⟩ := ih (processDetection now st d).1 h'
    rw [processDetections_cons]
    exact ⟨by rw [foundEventsFor_append, f1, f2]; rfl,
      by rw [updatedEventsFor_append, u1, u2]; rfl,
      by rw [g2, g1]⟩

theorem processDetections_found_case (now : Nat) (ds : List (DetectionIn α))
    (st : MarkerMap α) (x : α) (d : DetectionIn α)
    (hd : d ∈ ds) (hid : d.id = x)
    (hcount : (ds.map DetectionIn.id).count x = 1)
    (hrec : ∀ prev, alGet st x = some prev → prev.visible = false) :
    foundEventsFor (processDetections now st ds).2 x =
      [⟨x, d.poseMatrix.getD [], d.confidence.getD 0, d.corners.getD [], now⟩] ∧
    updatedEventsFor (processDetections now st ds).2 x = [] := by
  induction ds generalizing st with
  | nil => cases hd
  | cons d0 ds ih =>
    by_cases h0 : d0.id = x
    · have hzero : (ds.map DetectionIn.id).count x = 0 := by
        have h' := hcount
        simp [List.count_cons, h0] at h'
        omega
      have hnot : x ∉ ds.map DetectionIn.id := List.count_eq_zero.mp hzero
      have hd0 : d = d0 := by
        rcases List.mem_cons.mp hd with h | h
        · exact h
        · exact absurd (hid ▸ List.mem_map_of_mem DetectionIn.id h) hnot
      subst hd0
      have hfound := processDetection_found now st d (by rw [hid]; exact hrec)
      obtain ⟨f2, u2, g2⟩ := processDetections_not_mem now ds
        (alSet st d.id ⟨now, true, 0⟩) x hnot
      rw [processDetections_cons, hfound]
      constructor
      · rw [foundEventsFor_append, f2]
        simp [foundEventsFor, List.filterMap_cons, hid]
      · rw [updatedEventsFor_append, u2]
        simp [updatedEventsFor, List.filterMap_cons]
    · have hne : d ≠ d0 := fun e => h0 (by rw [← e, hid])
      have hd' : d ∈ ds := by
        rcases List.mem_cons.mp hd with h | h
        · exact absurd h hne
        · exact h
      have hcount' : (ds.map DetectionIn.id).count x = 1 := by
        have h' := hcount
        simpa [List.count_cons, h0] using h'
      obtain ⟨f1, u1, g1⟩ := processDetection_ne now st d0 x h0
      have hrec' : ∀ prev,
          alGet (processDetection now st d0).1 x = some prev →
            prev.visible = false := by
        rw [g1]; exact hrec
      obtain ⟨F, U⟩ := ih (processDetection now st d0).1 hd' hcount' hrec'
      rw [processDetections_cons]
      constructor
      · rw [foundEventsFor_append, f1, F]; rfl
      · rw [updatedEventsFor_append, u1, U]; rfl

theorem processDetections_updated_case (now : Nat) (ds : List (DetectionIn α))
    (st : MarkerMap α) (x : α) (d : DetectionIn α)
    (hd : d ∈ ds) (hid : d.id = x)
    (hcount : (ds.map DetectionIn.id).count x = 1)
    (prev : MarkerState) (hg : alGet st x = some prev)
    (hv : prev.visible = true) :
    updatedEventsFor (processDetections now st ds).2 x =
      [⟨x, d.poseMatrix.getD [], d.confidence.getD 0, d.corners.getD [], now⟩] ∧
    foundEventsFor (processDetections now st ds).2 x = [] := by
  induction ds generalizing st prev with
  | nil => cases hd
  | cons d0 ds ih =>
    by_cases h0 : d0.id = x
    · have hzero : (ds.map DetectionIn.id).count x = 0 := by
        have h' := hcount
        simp [List.count_cons, h0] at h'
        omega
      have hnot : x ∉ ds.map DetectionIn.id := List.count_eq_zero.mp hzero
      have hd0 : d = d0 := by
        rcases List.mem_cons.mp hd with h | h
        · exact h
        · exact absurd (hid ▸ List.mem_map_of_mem DetectionIn.id h) hnot
      subst hd0
      have hupd := processDetection_updated now st d prev (by rw [hid]; exact hg) hv
      obtain ⟨f2, u2, g2⟩ := processDetections_not_mem now ds
        (alSet st d.id ⟨now, prev.visible, 0⟩) x hnot
      rw [processDetections_cons, hupd]
      constructor
      · rw [updatedEventsFor_append, u2]
        simp [updatedEventsFor, List.filterMap_cons, hid]
      · rw [foundEventsFor_append, f2]
        simp [foundEventsFor, List.filterMap_cons]
    · have hne : d ≠ d0 := fun e => h0 (by rw [← e, hid])
      have hd' : d ∈ ds := by
        rcases List.mem_cons.mp hd with h | h
        · exact absurd h hne
        · exact h
      have hcount' : (ds.map DetectionIn.id).count x = 1 := by
        have h' := hcount
        simpa [List.count_cons, h0] using h'
      obtain ⟨f1, u1, g1⟩ := processDetection_ne now st d0 x h0
      have hg' : alGet (processDetection now st d0).1 x = some prev := by
        rw [g1]; exact hg
      obtain ⟨U, F⟩ := ih (processDetection now st d0).1 hd' hcount' prev hg' hv
      rw [processDetections_cons]
      constructor
      · rw [updatedEventsFor_append, u1, U]; rfl
      · rw [foundEventsFor_append, f1, F]; rfl

end LifecycleLemmas

/-! ### C1 — found/updated transitions per detection batch -/

/-- C1: in a detection batch that contains marker id x exactly once (with
a 16-entry pose matrix), if there is no prior record for x, or the
record is not visible, processing the batch emits exactly one found
event for x — carrying the input pose matrix, of length 16 — and no
updated event; if a visible record exists, it emits exactly one updated
event and no found event. -/
theorem detection_batch_found_updated {α : Type} [DecidableEq α] (now : Nat)
    (ds : List (DetectionIn α)) (st : MarkerMap α) (x : α) (d : DetectionIn α)
    (m : List ℚ) (hd : d ∈ ds) (hid : d.id = x)
    (hcount : (ds.map DetectionIn.id).count x = 1)
    (hm : d.poseMatrix = some m) (hlen : m.length = 16) :
    ((∀ prev, alGet st x = some prev → prev.visible = false) →
      foundEventsFor (processDetections now st ds).2 x =
        [⟨x, m, d.confidence.getD 0, d.corners.getD [], now⟩] ∧
      m.length = 16 ∧
      updatedEventsFor (processDetections now st ds).2 x = []) ∧
    (∀ prev, alGet st x = some prev → prev.visible = true →
      updatedEventsFor (processDetections now st ds).2 x =
        [⟨x, m, d.confidence.getD 0, d.corners.getD [], now⟩] ∧
      foundEventsFor (processDetections now st ds).2 x = []) := by
  have hpose : d.poseMatrix.getD [] = m := by rw [hm]; rfl
  constructor
  · intro hrec
    have h := processDetections_found_case now ds st x d hd hid hcount hrec
    rw [hpose] at h
    exact ⟨h.1, hlen, h.2⟩
  · intro prev hg hv
    have h := processDetections_updated_case now ds st x d hd hid hcount
      prev hg hv
    rw [hpose] at h
    exact ⟨h.1, h.2⟩

theorem detection_batch_found_updated_witness :
    foundEventsFor (processDetections 7 ([] : MarkerMap Nat)
        [⟨1, some (1 / 2), some (List.replicate 16 0), some []⟩]).2 1 =
      [⟨1, List.replicate 16 0, 1 / 2, [], 7⟩] ∧
    updatedEventsFor (processDetections 7 ([] : MarkerMap Nat)
        [⟨1, some (1 / 2), some (List.replicate 16 0), some []⟩]).2 1 = [] := by
  have h := (detection_batch_found_updated 7
      [⟨1, some (1 / 2), some (List.replicate 16 0), some []⟩]
      ([] : MarkerMap Nat) 1 ⟨1, some (1 / 2), some (List.replicate 16 0), some []⟩
      (List.replicate 16 0) (List.mem_singleton.mpr rfl) rfl (by simp) rfl
      (by simp)).1
    (by intro prev hg; simp [alGet] at hg)
  exact ⟨h.1, h.2.2⟩

/-! ### C5 — the staleness sweep -/

section SweepLemmas

variable {α : Type} [DecidableEq α]

omit [DecidableEq α] in
theorem not_mem_keys_filter {β : Type} (m : List (α × β)) (k : α)
    (q : α × β → Bool) (h : k ∉ m.map Prod.fst) :
    k ∉ (m.filter q).map Prod.fst := by
  intro hm
  obtain ⟨e, he, rfl⟩ := List.mem_map.mp hm
  exact h (List.mem_map_of_mem _ (List.mem_of_mem_filter he))

theorem alGet_filter_of_mem {β : Type} (m : List (α × β)) (hnd : KeysNodup m)
    (x : α) (s : β) (hmem : (x, s) ∈ m) (q : α × β → Bool) :
    alGet (m.filter q) x = if q (x, s) then some s else none := by
  induction m with
  | nil => cases hmem
  | cons e rest ih =>
    obtain ⟨k, v⟩ := e
    have hnd' : k ∉ rest.map Prod.fst ∧ KeysNodup rest := by
      simpa [KeysNodup, List.nodup_cons] using hnd
    rcases List.mem_cons.mp hmem with he | he
    · obtain ⟨rfl, rfl⟩ : x = k ∧ s = v := by
        simpa [Prod.ext_iff] using he
      cases hq : q (x, s) with
      | false =>
        have : alGet (rest.filter q) x =
            none := by
          apply alGet_eq_none_of_not_mem_keys
          exact not_mem_keys_filter rest x q hnd'.1
        simp [List.filter_cons, hq, this]
      | true => simp [List.filter_cons, hq, alGet]
    · have hx : x ≠ k := by
        intro e
        subst e
        exact hnd'.1 (List.mem_map_of_mem Prod.fst he)
      cases hq : q (k, v) <;>
        simp [List.filter_cons, hq, alGet, Ne.symm hx, ih hnd'.2 he]

theorem lostEventsFor_map_none (m : MarkerMap α) (now : Nat) (x : α)
    (h : x ∉ m.map Prod.fst) :
    lostEventsFor (m.map (fun e => MarkerEvent.lost e.1 now)) x = [] := by
  induction m with
  | nil => simp [lostEventsFor]
  | cons e rest ih =>
    obtain ⟨k, v⟩ := e
    have h1 : k ≠ x := fun hk => h (by simp [hk])
    have h2 : x ∉ rest.map Prod.fst := fun hm => h (by simp [hm])
    simpa [lostEventsFor, List.filterMap_cons, h1] using ih h2

theorem lostEventsFor_filter (m : MarkerMap α) (hnd : KeysNodup m)
    (x : α) (s : MarkerState) (hmem : (x, s) ∈ m)
    (q : α × MarkerState → Bool) (now : Nat) :
    lostEventsFor ((m.filter q).map (fun e => MarkerEvent.lost e.1 now)) x =
      if q (x, s) then [now] else [] := by
  induction m with
  | nil => cases hmem
  | cons e rest ih =>
    obtain ⟨k, v⟩ := e
    have hnd' : k ∉ rest.map Prod.fst ∧ KeysNodup rest := by
      simpa [KeysNodup, List.nodup_cons] using hnd
    rcases List.mem_cons.mp hmem with he | he
    · obtain ⟨rfl, rfl⟩ : x = k ∧ s = v := by
        simpa [Prod.ext_iff] using he
      have hrest : lostEventsFor
          ((rest.filter q).map (fun e => MarkerEvent.lost e.1 now)) x = [] :=
        lostEventsFor_map_none _ now x (not_mem_keys_filter rest x q hnd'.1)
      cases hq : q (x, s) with
      | false => simpa [List.filter_cons, hq] using hrest
      | true =>
        simpa [List.filter_cons, hq, lostEventsFor, List.filterMap_cons]
          using hrest
    · have hx : x ≠ k := by
        intro e
        subst e
        exact hnd'.1 (List.mem_map_of_mem Prod.fst he)
      cases hq : q (k, v) <;>
        simpa [List.filter_cons, hq, lostEventsFor, List.filterMap_cons,
          Ne.symm hx] using ih hnd'.2 he

end SweepLemmas

/-- C5: at a sweep tick, a tracked record strictly older than
`lostThreshold * frameDurationMs` is deleted and yields exactly one lost
event for its id; a record within the bound is left untouched by the
sweep and yields no lost event. -/
theorem sweep_removes_stale_keeps_fresh {α : Type} [DecidableEq α]
    (now lostThreshold frameDurationMs : Nat) (st : MarkerMap α)
    (hnd : KeysNodup st) (x : α) (s : MarkerState) (hmem : (x, s) ∈ st) :
    (isLost now (lostThreshold * frameDurationMs) s = true →
      alGet (sweepMarkers now lostThreshold frameDurationMs st).1 x = none ∧
      lostEventsFor (sweepMarkers now lostThreshold frameDurationMs st).2 x =
        [now]) ∧
    (isLost now (lostThreshold * frameDurationMs) s = false →
      alGet (sweepMarkers now lostThreshold frameDurationMs st).1 x = some s ∧
      lostEventsFor (sweepMarkers now lostThreshold frameDurationMs st).2 x =
        []) := by
  have hget := alGet_filter_of_mem st hnd x s hmem
    (fun e => !isLost now (lostThreshold * frameDurationMs) e.2)
  have hlost := lostEventsFor_filter st hnd x s hmem
    (fun e => isLost now (lostThreshold * frameDurationMs) e.2) now
  constructor
  · intro hl
    constructor
    · show alGet (st.filter _) x = none
      rw [hget]; simp [hl]
    · show lostEventsFor ((st.filter _).map _) x = [now]
      rw [hlost]; simp [hl]
  · intro hl
    constructor
    · show alGet (st.filter _) x = some s
      rw [hget]; simp [hl]
    · show lostEventsFor ((st.filter _).map _) x = []
      rw [hlost]; simp [hl]

theorem sweep_removes_stale_keeps_fresh_witness :
    (alGet (sweepMarkers 100 5 10
        [(1, ⟨0, true, 0⟩), (2, ⟨95, true, 0⟩)]).1 1 = none ∧
     lostEventsFor (sweepMarkers 100 5 10
        [(1, (⟨0, true, 0⟩ : MarkerState)), (2, ⟨95, true, 0⟩)]).2 1 = [100]) ∧
    (alGet (sweepMarkers 100 5 10
        [(1, (⟨0, true, 0⟩ : MarkerState)), (2, ⟨95, true, 0⟩)]).1 2 =
        some ⟨95, true, 0⟩ ∧
     lostEventsFor (sweepMarkers 100 5 10
        [(1, (⟨0, true, 0⟩ : MarkerState)), (2, ⟨95, true, 0⟩)]).2 2 = []) := by
  constructor
  · exact (sweep_removes_stale_keeps_fresh 100 5 10
      [(1, ⟨0, true, 0⟩), (2, ⟨95, true, 0⟩)] (by unfold KeysNodup; decide)
      1 ⟨0, true, 0⟩ (by decide)).1 (by decide)
  · exact (sweep_removes_stale_keeps_fresh 100 5 10
      [(1, ⟨0, true, 0⟩), (2, ⟨95, true, 0⟩)] (by unfold KeysNodup; decide)
      2 ⟨95, true, 0⟩ (by decide)).2 (by decide)

/-! ### C10 — stored records are always visible -/

section VisibleInvariant

variable {α : Type} [DecidableEq α]

theorem allVisible_alSet (m : MarkerMap α) (k : α) (v : MarkerState)
    (h : AllVisible m) (hv : v.visible = true) : AllVisible (alSet m k v) := by
  intro e he
  rcases mem_alSet m k v e he with rfl | he'
  · exact hv
  · exact h e he'

theorem allVisible_processDetection (now : Nat) (st : MarkerMap α)
    (d : DetectionIn α) (h : AllVisible st) :
    AllVisible (processDetection now st d).1 := by
  cases hg : alGet st d.id with
  | none =>
    rw [processDetection_found now st d (fun p hp => by rw [hg] at hp; cases hp)]
    exact allVisible_alSet st d.id ⟨now, true, 0⟩ h rfl
  | some prev =>
    cases hv : prev.visible with
    | false =>
      rw [processDetection_found now st d
        (fun p hp => by rw [hg] at hp; exact (Option.some.inj hp) ▸ hv)]
      exact allVisible_alSet st d.id ⟨now, true, 0⟩ h rfl
    | true =>
      rw [processDetection_updated now st d prev hg hv]
      exact allVisible_alSet st d.id ⟨now, prev.visible, 0⟩ h hv

theorem allVisible_processDetections (now : Nat) (ds : List (DetectionIn α))
    (st : MarkerMap α) (h : AllVisible st) :
    AllVisible (processDetections now st ds).1 := by
  induction ds generalizing st with
  | nil => exact h
  | cons d ds ih =>
    exact ih (processDetection now st d).1 (allVisible_processDetection now st d h)

omit [DecidableEq α] in
theorem allVisible_sweep (now lostThreshold frameDurationMs : Nat)
    (st : MarkerMap α) (h : AllVisible st) :
    AllVisible (sweepMarkers now lostThreshold frameDurationMs st).1 := by
  intro e he
  exact h e (List.mem_of_mem_filter he)

end VisibleInvariant

/-- C10: in every marker map reachable by the plugin (created empty, then
changed only by detection batches and sweeps), every stored record is
visible — records are created visible, kept visible on update, and only
ever removed by the sweep, so the not-visible branch of the found
transition never fires for a stored record. -/
theorem marker_records_always_visible {α : Type} [DecidableEq α]
    {st : MarkerMap α} (hr : ReachableMarkers st) :
    ∀ (i : α) (p : MarkerState), alGet st i = some p → p.visible = true := by
  have hall : AllVisible st := by
    induction hr with
    | empty => intro e he; cases he
    | detections now ds _ ih => exact allVisible_processDetections now ds _ ih
    | sweep now lostThreshold frameDurationMs _ ih =>
      exact allVisible_sweep now lostThreshold frameDurationMs _ ih
  intro i p hg
  exact hall (i, p) (alGet_mem _ i p hg)

theorem marker_records_always_visible_witness :
    alGet (processDetections 7 ([] : MarkerMap Nat)
        [⟨1, none, none, none⟩]).1 1 = some ⟨7, true, 0⟩ ∧
    (⟨7, true, 0⟩ : MarkerState).visible = true :=
  ⟨by decide,
   marker_records_always_visible
     (ReachableMarkers.detections 7 [⟨1, none, none, none⟩]
       ReachableMarkers.empty) 1 ⟨7, true, 0⟩ (by decide)⟩

end ArjsArtoolkit
